import Mathlib

/-!
Verification of the valuecell repository's market-data aggregation layer and
of selected frontend components.

The market-data core (RateLimiter, PrimarySource, FallbackSource, Resampler,
CoverageValidator, MicrostructureCalculator, Orchestrator) is described by
the specification and the repository README but its implementation files are
not present in this checkout; those components are therefore modelled from
the spec, as noted on each definition.  The frontend components
(exchange-form placeholders, the strategy-name generator of the create/copy
strategy wizards, and the BackendHealthCheck progress bar) are embedded from
the TypeScript sources.

Prices and volumes are embedded as rationals (exact arithmetic); candle
timestamps are natural numbers counted in minutes, so that a 1-minute candle
occupies one unit and the bucket duration of the 15m/1h intervals is 15/60
units.
-/

namespace ValueCell

/-- Modelled from the spec: the `Candle` record
{open_time, close_time, open, high, low, close, volume}.  The `open` field is
called `open_` because `open` is a Lean keyword. -/
structure Candle where
  open_time : Nat
  close_time : Nat
  open_ : ℚ
  high : ℚ
  low : ℚ
  close : ℚ
  volume : ℚ
  deriving DecidableEq

/-- Modelled from the spec: the interval enum `{1m, 15m, 1h}`. -/
inductive Interval
  | m1
  | m15
  | h1
  deriving DecidableEq

/-- Modelled from the spec: duration of an interval in minutes (the bucket
duration of the Resampler, and also the number of 1-minute candles expected
per bucket). -/
def durMin : Interval → Nat
  | .m1 => 1
  | .m15 => 15
  | .h1 => 60

/-- Modelled from the spec: the Resampler's bucket boundary,
`floor(open_time / bucket_duration)`; a candle belongs to bucket `b` when
`open_time / d = b`, and the bucket start is `d * b`. -/
def bucketKey (d : Nat) (c : Candle) : Nat :=
  c.open_time / d

/-- Modelled from the spec: one aggregation step of the Resampler.  The
accumulator keeps its open and open_time, takes the running max of highs and
min of lows, the newest close, and the running sum of volumes. -/
def aggStep (a c : Candle) : Candle :=
  { a with
    high := max a.high c.high
    low := min a.low c.low
    close := c.close
    volume := a.volume + c.volume }

/-- Modelled from the spec: aggregation of one non-empty bucket `c :: rest`
(in ascending open_time order) into a single candle whose open_time is the
bucket start `d * b`. -/
def aggBucket (d b : Nat) (c : Candle) (rest : List Candle) : Candle :=
  rest.foldl aggStep { c with open_time := d * b, close_time := d * b + d }

/-- Modelled from the spec: `resample(oneMinCandles, target_interval)`.
Groups the 1-minute candles into fixed-size buckets keyed by
`open_time / d` and aggregates each non-empty bucket; bucket keys appear in
first-occurrence order of the input. -/
def resample (cs : List Candle) (d : Nat) : List Candle :=
  ((cs.map (bucketKey d)).dedup).filterMap fun b =>
    match cs.filter (fun c => bucketKey d c == b) with
    | [] => none
    | c :: rest => some (aggBucket d b c rest)

/-- Modelled from the spec: expected number of live 1-minute candles per
bucket of the given interval (15 for 15m, 60 for 1h). -/
def expected1m (i : Interval) : Nat :=
  durMin i

/-- Modelled from the spec: the required minimum count of live 1m candles per
bucket, 13 of 15 for 15m and 51 of 60 for 1h. -/
def requiredMin : Interval → Nat
  | .m1 => 1
  | .m15 => 13
  | .h1 => 51

/-- Modelled from the spec: `coverage_ratio = observed_1m_count /
expected_1m_count`. -/
def coverageRatio (observed : Nat) (i : Interval) : ℚ :=
  (observed : ℚ) / (expected1m i : ℚ)

/-- Modelled from the spec: the CoverageValidator's
`validate(bucket_candle_count, interval)`: a bucket is accepted exactly when
its coverage ratio is at least 0.85. -/
def validate (observed : Nat) (i : Interval) : Bool :=
  decide ((85 : ℚ) / 100 ≤ coverageRatio observed i)

/-- Modelled from the spec: resampling followed by coverage validation; every
bucket failing the threshold is dropped from the output sequence entirely. -/
def resampleValidated (cs : List Candle) (i : Interval) : List Candle :=
  (resample cs (durMin i)).filter fun k =>
    validate (cs.countP fun c => bucketKey (durMin i) c == bucketKey (durMin i) k) i

/-- Modelled from the spec: the error taxonomy of §7. -/
inductive SourceError
  | UnsupportedInterval
  | RateLimited
  | NetworkError
  | UpstreamError
  | MarketTypeMismatch
  | InsufficientCoverage
  deriving DecidableEq

/-- Modelled from the spec: the provenance enum of an IntervalBlock. -/
inductive BlockSource
  | primary
  | fallback
  | resampled
  | missing
  deriving DecidableEq

/-- Modelled from the spec: the `IntervalBlock` record. -/
structure IntervalBlock where
  interval : Interval
  candles : List Candle
  source : BlockSource
  missing : Bool
  coverage_ratio : ℚ
  deriving DecidableEq

/-- Result of one source fetch: a candle list or a SourceError. -/
abbrev Fetch := Except SourceError (List Candle)

/-- Modelled from the spec: "Success with sufficient candle count"; the spec
leaves the exact count to configuration, modelled as a non-empty result. -/
def enoughCandles (cs : List Candle) : Bool :=
  !cs.isEmpty

/-- Modelled from the spec: the block produced when all fetch/resample
attempts fail or coverage fails. -/
def missingBlock (i : Interval) : IntervalBlock :=
  ⟨i, [], .missing, true, 0⟩

/-- Modelled from the spec: one attempt of the fallback chain.  A usable
result yields `some` candles, an insufficient success or a source-level
failure falls through as `none`, and only the fatal `UnsupportedInterval`
propagates as an error. -/
def tryFetch : Fetch → Except SourceError (Option (List Candle))
  | .ok cs => .ok (if enoughCandles cs then some cs else none)
  | .error .UnsupportedInterval => .error .UnsupportedInterval
  | .error _ => .ok none

/-- Modelled from the spec: overall coverage ratio recorded on a resampled
block, observed 1m candles within the produced buckets over the expected
count. -/
def blockRatio (cs : List Candle) (i : Interval) (out : List Candle) : ℚ :=
  if out.length = 0 then 0
  else
    ((cs.countP fun c =>
        out.any fun k => bucketKey (durMin i) c == bucketKey (durMin i) k : Nat) : ℚ) /
      ((durMin i : ℚ) * (out.length : ℚ))

/-- Modelled from the spec: the tail of the orchestration state machine for a
derived interval once 1m base candles were obtained: resample, validate
coverage, and mark the block `missing` when nothing survives. -/
def resampleFinish (i : Interval) (one : List Candle) : IntervalBlock :=
  if (resampleValidated one i).isEmpty then missingBlock i
  else
    ⟨i, resampleValidated one i, .resampled, false,
      blockRatio one i (resampleValidated one i)⟩

/-- Modelled from the spec: the Orchestrator's per-interval state machine of
§4.8, with terminal states primary / fallback / resampled / missing.  The
four `Fetch` arguments are the environment's answers to the primary fetch,
the fallback fetch, and the 1m base fetches from primary and fallback used by
the resample path. -/
def orchestrateInterval (i : Interval) (prim fall prim1m fall1m : Fetch) :
    Except SourceError IntervalBlock :=
  match tryFetch prim with
  | .error e => .error e
  | .ok (some cs) => .ok ⟨i, cs, .primary, false, 1⟩
  | .ok none =>
    match tryFetch fall with
    | .error e => .error e
    | .ok (some cs) => .ok ⟨i, cs, .fallback, false, 1⟩
    | .ok none =>
      if i = .m1 then .ok (missingBlock i)
      else
        match tryFetch prim1m with
        | .error e => .error e
        | .ok (some one) => .ok (resampleFinish i one)
        | .ok none =>
          match tryFetch fall1m with
          | .error e => .error e
          | .ok (some one) => .ok (resampleFinish i one)
          | .ok none => .ok (missingBlock i)

/-- The four fetch answers the environment gives for one interval. -/
structure FetchEnv where
  prim : Fetch
  fall : Fetch
  prim1m : Fetch
  fall1m : Fetch

/-- Modelled from the spec: microstructure configuration constants. -/
structure MicroConfig where
  taker_fee_bps : ℚ
  slippage_floor_bps : ℚ
  edge_multiplier : ℚ

/-- Modelled from the spec: `spread_bps = (ask - bid) / mid * 10000` at
`mid = (bid + ask) / 2`. -/
def spread_bps (bid ask : ℚ) : ℚ :=
  (ask - bid) / ((bid + ask) / 2) * 10000

/-- Modelled from the spec: `edge_floor_bps =
(2 * taker_fee_bps + spread_bps + slippage_floor_bps) * edge_multiplier`. -/
def edge_floor_bps (bid ask : ℚ) (cfg : MicroConfig) : ℚ :=
  (2 * cfg.taker_fee_bps + spread_bps bid ask + cfg.slippage_floor_bps) *
    cfg.edge_multiplier

/-- Modelled from the spec: the `StructuralBlocks` response; spread fields
are optional because depth data "fails soft". -/
structure StructuralBlocks where
  symbol : String
  blocks : List IntervalBlock
  best_bid : Option ℚ
  best_ask : Option ℚ
  spreadBps : Option ℚ
  edgeFloorBps : Option ℚ

/-- Modelled from the spec: orchestration of every requested interval in
order; a fatal error from one interval aborts the call. -/
def orchestrateAll (intervals : List Interval) (env : Interval → FetchEnv) :
    Except SourceError (List IntervalBlock) :=
  match intervals with
  | [] => .ok []
  | i :: rest =>
    match orchestrateInterval i (env i).prim (env i).fall (env i).prim1m (env i).fall1m with
    | .error e => .error e
    | .ok b =>
      match orchestrateAll rest env with
      | .error e => .error e
      | .ok bs => .ok (b :: bs)

/-- Modelled from the spec: the public entry point `get_structural_blocks`.
`depth` is the optional best bid/ask from the order-book endpoint; when it is
unavailable the spread fields are omitted rather than the call failing. -/
def get_structural_blocks (symbol : String) (intervals : List Interval)
    (env : Interval → FetchEnv) (depth : Option (ℚ × ℚ)) (cfg : MicroConfig) :
    Except SourceError StructuralBlocks :=
  match orchestrateAll intervals env with
  | .error e => .error e
  | .ok bs =>
    .ok
      { symbol := symbol
        blocks := bs
        best_bid := depth.map Prod.fst
        best_ask := depth.map Prod.snd
        spreadBps := depth.map fun p => spread_bps p.1 p.2
        edgeFloorBps := depth.map fun p => edge_floor_bps p.1 p.2 cfg }

/-! Frontend embeddings, from the TypeScript sources. -/

/-- The five-member field-type union of `getPlaceholder` in
`src/frontend/src/components/valuecell/form/exchange-form.tsx`. -/
inductive FieldType
  | api_key
  | secret_key
  | passphrase
  | wallet_address
  | private_key
  deriving DecidableEq

/-- The exchange-specific branches of `getPlaceholder`'s switch statement:
`some` when a case returns a placeholder, `none` when control breaks out of
the switch (or no case matches) and falls through to the defaults. -/
def placeholderOverride (exchangeId : String) (fieldType : FieldType) : Option String :=
  if exchangeId = "binance" then
    if fieldType = .api_key then some "Enter API Key (64 characters)"
    else if fieldType = .secret_key then some "Enter Secret Key (64 characters)"
    else none
  else if exchangeId = "okx" then
    if fieldType = .api_key then some "Enter API Key (Format: xxxxxxxx-xxxx-...)"
    else if fieldType = .secret_key then
      some "Enter Secret Key (32 uppercase letters & numbers)"
    else if fieldType = .passphrase then
      some "Enter Passphrase (Set during API creation)"
    else none
  else if exchangeId = "gate" then
    if fieldType = .api_key then some "Enter API Key (Starts with 'key_')"
    else if fieldType = .secret_key then some "Enter Secret Key (64 characters)"
    else none
  else if exchangeId = "hyperliquid" then
    if fieldType = .wallet_address then
      some "Enter Wallet Address (Starts with '0x')"
    else if fieldType = .private_key then some "Enter Private Key (64 characters)"
    else none
  else if exchangeId = "blockchaincom" then
    if fieldType = .api_key then some "Enter API Key (Format: xxxxxxxx-xxxx-...)"
    else if fieldType = .secret_key then some "Enter Secret Key"
    else none
  else if exchangeId = "coinbaseexchange" then
    if fieldType = .api_key then some "Enter API Key (or Key Name)"
    else if fieldType = .secret_key then some "Enter API Secret (or Private Key)"
    else if fieldType = .passphrase then
      some "Enter Passphrase (Required for Legacy Pro API)"
    else none
  else if exchangeId = "mexc" then
    if fieldType = .api_key then some "Enter Access Key (Starts with 'mx0')"
    else if fieldType = .secret_key then
      some "Enter Secret Key (Usually 32 characters)"
    else none
  else none

/-- The default-placeholder tail of `getPlaceholder`, including its final
`return ""`. -/
def placeholderDefault (fieldType : FieldType) : String :=
  if fieldType = .api_key then "Paste your API Key here"
  else if fieldType = .secret_key then "Paste your Secret Key here"
  else if fieldType = .passphrase then "Enter Passphrase"
  else if fieldType = .wallet_address then "Enter Wallet Address"
  else if fieldType = .private_key then "Enter Private Key"
  else ""

/-- `getPlaceholder` of `exchange-form.tsx`: the switch result when a case
returns, the defaults otherwise. -/
def getPlaceholder (exchangeId : String) (fieldType : FieldType) : String :=
  (placeholderOverride exchangeId fieldType).getD (placeholderDefault fieldType)

/-- Decimal rendering of a natural number, digit characters in big-endian
order: the string JavaScript interpolates for the integer `counter` in the
template literal `{baseName}-{counter}` of the strategy wizards. -/
def natStr (n : Nat) : String :=
  if n = 0 then "0" else ⟨((Nat.digits 10 n).map Nat.digitChar).reverse⟩

/-- The candidate-name loop of `CreateStrategyModal` / `CopyStrategyModal`
step-2 submit: while some existing strategy carries `newName`, move to
`baseName-counter` and increment the counter.  `fuel` bounds the iteration so
the function is total; `generateStrategyName` supplies enough fuel. -/
def nameLoop (names : List String) (base newName : String) (counter fuel : Nat) :
    Option String :=
  match fuel with
  | 0 => none
  | Nat.succ f =>
    if newName ∈ names then
      nameLoop names base (base ++ "-" ++ natStr counter) (counter + 1) f
    else some newName

/-- The auto-generated strategy name: the loop started at `newName = base`,
`counter = 1`, with fuel `names.length + 1` (one more candidate than there
are existing strategies). -/
def generateStrategyName (names : List String) (base : String) : Option String :=
  nameLoop names base base 1 (names.length + 1)

/-- The `k`-th candidate name the loop tries: the base itself for `k = 0`,
`base-k` for `k ≥ 1`. -/
def candidateName (base : String) (k : Nat) : String :=
  if k = 0 then base else base ++ "-" ++ natStr k

/-- One tick of the fake progress bar in `BackendHealthCheck`: `r` is the
first `Math.random()` draw selecting stall / jump / normal, `s` the second
draw scaling the normal increment. -/
def progressStep (prev r s : ℚ) : ℚ :=
  if 99 ≤ prev then prev
  else
    prev +
      (if r < 1 / 10 then 1 / 50
       else if 9 / 10 < r then 4 / 5
       else 1 / 10 + s * (3 / 10))

/-- The progress value after a sequence of timer ticks with the given random
draws, starting from the initial state 0. -/
def progressRun (draws : List (ℚ × ℚ)) : ℚ :=
  draws.foldl (fun p d => progressStep p d.1 d.2) 0

/-- Concrete 1-minute candle used by witnesses. -/
def wCandle1 : Candle := ⟨0, 1, 10, 12, 9, 11, 2⟩

/-- Concrete 1-minute candle used by witnesses. -/
def wCandle2 : Candle := ⟨1, 2, 11, 15, 8, 13, 3⟩

/-- Modelled from the spec: whether a fetch result is the fatal
`UnsupportedInterval` programming error (§7); every other `SourceError` is a
recoverable source-level failure. -/
def isFatal : Fetch → Bool
  | .error .UnsupportedInterval => true
  | _ => false

/-! ## Helper lemmas about the Resampler's bucket aggregation -/

theorem foldl_aggStep_open_time (l : List Candle) (a : Candle) :
    (l.foldl aggStep a).open_time = a.open_time := by
  induction l generalizing a with
  | nil => rfl
  | cons c t ih => rw [List.foldl_cons, ih]; rfl

theorem foldl_aggStep_open (l : List Candle) (a : Candle) :
    (l.foldl aggStep a).open_ = a.open_ := by
  induction l generalizing a with
  | nil => rfl
  | cons c t ih => rw [List.foldl_cons, ih]; rfl

theorem getLastD_close_congr (u : List Candle) (x y : Candle)
    (h : x.close = y.close) : (u.getLastD x).close = (u.getLastD y).close := by
  cases u with
  | nil => simpa using h
  | cons z t => rw [List.getLastD_cons, List.getLastD_cons]

theorem foldl_aggStep_close (l : List Candle) (a : Candle) :
    (l.foldl aggStep a).close = (l.getLastD a).close := by
  induction l generalizing a with
  | nil => rfl
  | cons c t ih =>
    rw [List.foldl_cons, ih, List.getLastD_cons]
    exact getLastD_close_congr t (aggStep a c) c rfl

theorem foldl_aggStep_volume (l : List Candle) (a : Candle) :
    (l.foldl aggStep a).volume = a.volume + (l.map Candle.volume).sum := by
  induction l generalizing a with
  | nil => simp
  | cons c t ih =>
    rw [List.foldl_cons, ih]
    simp [aggStep]
    ring

theorem foldl_aggStep_high (l : List Candle) (a : Candle) :
    (l.foldl aggStep a).high = (l.map Candle.high).foldl max a.high := by
  induction l generalizing a with
  | nil => rfl
  | cons c t ih => rw [List.foldl_cons, ih]; rfl

theorem foldl_aggStep_low (l : List Candle) (a : Candle) :
    (l.foldl aggStep a).low = (l.map Candle.low).foldl min a.low := by
  induction l generalizing a with
  | nil => rfl
  | cons c t ih => rw [List.foldl_cons, ih]; rfl

theorem le_foldl_max (x : ℚ) (l : List ℚ) : x ≤ l.foldl max x := by
  induction l generalizing x with
  | nil => exact le_refl x
  | cons y t ih => exact le_trans (le_max_left x y) (ih (max x y))

theorem foldl_max_le_of_mem {y : ℚ} {l : List ℚ} (x : ℚ) (h : y ∈ l) :
    y ≤ l.foldl max x := by
  induction l generalizing x with
  | nil => cases h
  | cons z t ih =>
    rcases List.mem_cons.mp h with rfl | h'
    · exact le_trans (le_max_right x y) (le_foldl_max _ t)
    · exact ih _ h'

theorem foldl_max_mem (x : ℚ) (l : List ℚ) :
    l.foldl max x = x ∨ l.foldl max x ∈ l := by
  induction l generalizing x with
  | nil => exact Or.inl rfl
  | cons y t ih =>
    rw [List.foldl_cons]
    rcases ih (max x y) with h | h
    · rcases max_choice x y with hm | hm
      · exact Or.inl (h.trans hm)
      · exact Or.inr (List.mem_cons.mpr (Or.inl (h.trans hm)))
    · exact Or.inr (List.mem_cons_of_mem _ h)

theorem foldl_min_le (x : ℚ) (l : List ℚ) : l.foldl min x ≤ x := by
  induction l generalizing x with
  | nil => exact le_refl x
  | cons y t ih => exact le_trans (ih (min x y)) (min_le_left x y)

theorem le_foldl_min_of_mem {y : ℚ} {l : List ℚ} (x : ℚ) (h : y ∈ l) :
    l.foldl min x ≤ y := by
  induction l generalizing x with
  | nil => cases h
  | cons z t ih =>
    rcases List.mem_cons.mp h with rfl | h'
    · exact le_trans (foldl_min_le _ t) (min_le_right x y)
    · exact ih _ h'

theorem foldl_min_mem (x : ℚ) (l : List ℚ) :
    l.foldl min x = x ∨ l.foldl min x ∈ l := by
  induction l generalizing x with
  | nil => exact Or.inl rfl
  | cons y t ih =>
    rw [List.foldl_cons]
    rcases ih (min x y) with h | h
    · rcases min_choice x y with hm | hm
      · exact Or.inl (h.trans hm)
      · exact Or.inr (List.mem_cons.mpr (Or.inl (h.trans hm)))
    · exact Or.inr (List.mem_cons_of_mem _ h)

theorem aggBucket_mem_resample (cs : List Candle) (d b : Nat)
    (c0 : Candle) (rest : List Candle)
    (hb : cs.filter (fun c => bucketKey d c == b) = c0 :: rest) :
    aggBucket d b c0 rest ∈ resample cs d := by
  have hc0 : c0 ∈ cs.filter (fun c => bucketKey d c == b) := by
    rw [hb]; exact List.mem_cons_self _ _
  have hc0' := List.mem_filter.mp hc0
  refine List.mem_filterMap.mpr ⟨b, ?_, ?_⟩
  · exact List.mem_dedup.mpr
      (List.mem_map.mpr ⟨c0, hc0'.1, by simpa using hc0'.2⟩)
  · rw [hb]

/-- C1: for every non-empty bucket of 1-minute candles (given here as the
bucket's candles `c0 :: rest` in ascending open_time order, obtained by
filtering the input on the bucket key `b = floor(open_time / d)`), the
Resampler outputs a candle for that bucket whose open is the first candle's
open, close the last candle's close, high the maximum of the highs, low the
minimum of the lows, volume the exact sum of the volumes, and open_time the
bucket start `d * b`. -/
theorem resample_bucket_correct (cs : List Candle) (d b : Nat) (hd : 0 < d)
    (hsorted : cs.Pairwise fun a c => a.open_time < c.open_time)
    (c0 : Candle) (rest : List Candle)
    (hb : cs.filter (fun c => bucketKey d c == b) = c0 :: rest) :
    ∃ k ∈ resample cs d,
      k.open_time = d * b ∧
      k.open_ = c0.open_ ∧
      k.close = (rest.getLastD c0).close ∧
      (∀ c ∈ c0 :: rest, c.high ≤ k.high) ∧
      k.high ∈ (c0 :: rest).map Candle.high ∧
      (∀ c ∈ c0 :: rest, k.low ≤ c.low) ∧
      k.low ∈ (c0 :: rest).map Candle.low ∧
      k.volume = ((c0 :: rest).map Candle.volume).sum := by
  refine ⟨aggBucket d b c0 rest, aggBucket_mem_resample cs d b c0 rest hb,
    ?_, ?_, ?_, ?_, ?_, ?_, ?_, ?_⟩
  · rw [aggBucket, foldl_aggStep_open_time]
  · rw [aggBucket, foldl_aggStep_open]
  · rw [aggBucket, foldl_aggStep_close]
    exact getLastD_close_congr rest _ c0 rfl
  · intro c hc
    rw [aggBucket, foldl_aggStep_high]
    rcases List.mem_cons.mp hc with rfl | hc'
    · exact le_foldl_max _ _
    · exact foldl_max_le_of_mem _ (List.mem_map_of_mem Candle.high hc')
  · rw [aggBucket, foldl_aggStep_high]
    rcases foldl_max_mem (Candle.high { c0 with open_time := d * b, close_time := d * b + d })
        (rest.map Candle.high) with h | h
    · rw [h]; exact List.mem_cons_self _ _
    · exact List.mem_cons_of_mem _ (by simpa using h)
  · intro c hc
    rw [aggBucket, foldl_aggStep_low]
    rcases List.mem_cons.mp hc with rfl | hc'
    · exact foldl_min_le _ _
    · exact le_foldl_min_of_mem _ (List.mem_map_of_mem Candle.low hc')
  · rw [aggBucket, foldl_aggStep_low]
    rcases foldl_min_mem (Candle.low { c0 with open_time := d * b, close_time := d * b + d })
        (rest.map Candle.low) with h | h
    · rw [h]; exact List.mem_cons_self _ _
    · exact List.mem_cons_of_mem _ (by simpa using h)
  · rw [aggBucket, foldl_aggStep_volume, List.map_cons, List.sum_cons]

/-! ## CoverageValidator -/

theorem validate_iff (n : Nat) (i : Interval) :
    validate n i = true ↔ requiredMin i ≤ n := by
  have he : (0 : ℚ) < ((expected1m i : Nat) : ℚ) := by
    cases i <;> norm_num [expected1m, durMin]
  rw [validate, decide_eq_true_eq, coverageRatio, div_le_div_iff (by norm_num) he]
  cases i with
  | m1 =>
    simp only [expected1m, durMin, requiredMin]
    constructor
    · intro h
      by_contra hn
      push_neg at hn
      have hq : (n : ℚ) ≤ 0 := by
        rw [Nat.lt_one_iff.mp hn]
        norm_num
      push_cast at h
      linarith
    · intro h
      have hq : (1 : ℚ) ≤ (n : ℚ) := by exact_mod_cast h
      push_cast
      linarith
  | m15 =>
    simp only [expected1m, durMin, requiredMin]
    constructor
    · intro h
      by_contra hn
      push_neg at hn
      have hq : (n : ℚ) ≤ 12 := by exact_mod_cast Nat.lt_succ_iff.mp hn
      push_cast at h
      linarith
    · intro h
      have hq : (13 : ℚ) ≤ (n : ℚ) := by exact_mod_cast h
      push_cast
      linarith
  | h1 =>
    simp only [expected1m, durMin, requiredMin]
    constructor
    · intro h
      by_contra hn
      push_neg at hn
      have hq : (n : ℚ) ≤ 50 := by exact_mod_cast Nat.lt_succ_iff.mp hn
      push_cast at h
      linarith
    · intro h
      have hq : (51 : ℚ) ≤ (n : ℚ) := by exact_mod_cast h
      push_cast
      linarith

/-- C2: the CoverageValidator accepts a bucket exactly when it holds at least
`requiredMin` live 1-minute candles (13 of 15 for 15m, 51 of 60 for 1h),
which is exactly the condition `coverage_ratio = observed / expected ≥ 0.85`;
and a candle is in the validated resampled output exactly when it is a
resampled bucket whose observed 1m count passes `validate` — a failing bucket
is dropped entirely. -/
theorem coverage_validator_spec (n : Nat) (i : Interval) (cs : List Candle)
    (k : Candle) :
    (validate n i = true ↔ requiredMin i ≤ n) ∧
    (k ∈ resampleValidated cs i ↔
      k ∈ resample cs (durMin i) ∧
        validate
          (cs.countP fun c => bucketKey (durMin i) c == bucketKey (durMin i) k)
          i = true) :=
  ⟨validate_iff n i, by simp [resampleValidated, List.mem_filter]⟩

/-! ## Resampler determinism -/

/-- C7: the Resampler is deterministic — two invocations of `resample` on the
same 1-minute candle set and target bucket duration yield identical output
sequences.  In this embedding `resample` is a pure function, so determinism
is definitional. -/
theorem resample_deterministic (cs : List Candle) (d : Nat) :
    resample cs d = resample cs d := rfl

/-! ## MicrostructureCalculator -/

/-- C4 counterexample: at bid = 100, ask = 100.05, taker_fee_bps = 4,
slippage_floor_bps = 2, edge_multiplier = 1.5, the exact edge floor is
90015/4001 ≈ 22.498, not 22.5 (the spec's 22.5 comes from rounding the
spread to 5.0 first). -/
theorem edge_floor_counterexample :
    edge_floor_bps 100 (10005 / 100) ⟨4, 2, 3 / 2⟩ ≠ 45 / 2 := by
  norm_num [edge_floor_bps, spread_bps]

/-- C4 (amended): for every bid, ask and configuration the calculator
computes `spread_bps = (ask - bid) / mid * 10000` and `edge_floor_bps =
(2 * taker_fee_bps + spread_bps + slippage_floor_bps) * edge_multiplier`;
at bid = 100, ask = 100.05, fee = 4, slippage = 2, multiplier = 1.5 this
yields spread_bps within 1/500 of 5.0 and edge_floor_bps within 1/500 of
22.5 (not exactly 22.5). -/
theorem micro_edge_floor (bid ask fee slip mult : ℚ) (hm : 1 ≤ mult) :
    spread_bps bid ask = (ask - bid) / ((bid + ask) / 2) * 10000 ∧
    edge_floor_bps bid ask ⟨fee, slip, mult⟩ =
      (2 * fee + spread_bps bid ask + slip) * mult ∧
    |spread_bps 100 (10005 / 100) - 5| ≤ 1 / 500 ∧
    |edge_floor_bps 100 (10005 / 100) ⟨4, 2, 3 / 2⟩ - 45 / 2| ≤ 1 / 500 := by
  refine ⟨rfl, rfl, ?_, ?_⟩
  · rw [show spread_bps 100 (10005 / 100) = 20000 / 4001 by
      norm_num [spread_bps]]
    rw [abs_le]
    constructor <;> norm_num
  · rw [show edge_floor_bps 100 (10005 / 100) ⟨4, 2, 3 / 2⟩ = 90015 / 4001 by
      norm_num [edge_floor_bps, spread_bps]]
    rw [abs_le]
    constructor <;> norm_num

/-- Witness for C4's amended theorem at the concrete spec example. -/
theorem micro_edge_floor_witness :
    spread_bps 100 (10005 / 100) =
      (10005 / 100 - 100) / ((100 + 10005 / 100) / 2) * 10000 ∧
    edge_floor_bps 100 (10005 / 100) ⟨4, 2, 3 / 2⟩ =
      (2 * 4 + spread_bps 100 (10005 / 100) + 2) * (3 / 2) ∧
    |spread_bps 100 (10005 / 100) - 5| ≤ 1 / 500 ∧
    |edge_floor_bps 100 (10005 / 100) ⟨4, 2, 3 / 2⟩ - 45 / 2| ≤ 1 / 500 :=
  micro_edge_floor 100 (10005 / 100) 4 2 (3 / 2) (by norm_num)

/-- Witness for C1 at the concrete two-candle input of bucket 0 with a 15m
bucket duration. -/
theorem resample_bucket_correct_witness :
    ∃ k ∈ resample [wCandle1, wCandle2] 15,
      k.open_time = 15 * 0 ∧
      k.open_ = wCandle1.open_ ∧
      k.close = ([wCandle2].getLastD wCandle1).close ∧
      (∀ c ∈ wCandle1 :: [wCandle2], c.high ≤ k.high) ∧
      k.high ∈ (wCandle1 :: [wCandle2]).map Candle.high ∧
      (∀ c ∈ wCandle1 :: [wCandle2], k.low ≤ c.low) ∧
      k.low ∈ (wCandle1 :: [wCandle2]).map Candle.low ∧
      k.volume = ((wCandle1 :: [wCandle2]).map Candle.volume).sum :=
  resample_bucket_correct [wCandle1, wCandle2] 15 0 (by norm_num)
    (by decide) wCandle1 [wCandle2] (by decide)

/-! ## Orchestrator -/

theorem orchestrate_cases (i : Interval) (p f p1 f1 : Fetch)
    (b : IntervalBlock) (hb : orchestrateInterval i p f p1 f1 = .ok b) :
    (∃ cs, b = ⟨i, cs, .primary, false, 1⟩) ∨
    (∃ cs, b = ⟨i, cs, .fallback, false, 1⟩) ∨
    b = missingBlock i ∨
    (i ≠ .m1 ∧ ∃ one, b = resampleFinish i one) := by
  unfold orchestrateInterval at hb
  rcases hp : tryFetch p with ep | op <;> rw [hp] at hb
  · simp at hb
  rcases op with _ | cs
  · simp only at hb
    rcases hf : tryFetch f with ef | of <;> rw [hf] at hb
    · simp at hb
    rcases of with _ | cs2
    · simp only at hb
      by_cases hi : i = .m1
      · rw [if_pos hi] at hb
        cases hb
        exact Or.inr (Or.inr (Or.inl rfl))
      · rw [if_neg hi] at hb
        rcases hp1 : tryFetch p1 with ep1 | op1 <;> rw [hp1] at hb
        · simp at hb
        rcases op1 with _ | one
        · simp only at hb
          rcases hf1 : tryFetch f1 with ef1 | of1 <;> rw [hf1] at hb
          · simp at hb
          rcases of1 with _ | one2
          · simp only at hb
            cases hb
            exact Or.inr (Or.inr (Or.inl rfl))
          · simp only at hb
            cases hb
            exact Or.inr (Or.inr (Or.inr ⟨hi, one2, rfl⟩))
        · simp only at hb
          cases hb
          exact Or.inr (Or.inr (Or.inr ⟨hi, one, rfl⟩))
    · simp only at hb
      cases hb
      exact Or.inr (Or.inl ⟨cs2, rfl⟩)
  · simp only at hb
    cases hb
    exact Or.inl ⟨cs, rfl⟩

theorem orchestrate_ok_inv (i : Interval) (p f p1 f1 : Fetch)
    (b : IntervalBlock) (hb : orchestrateInterval i p f p1 f1 = .ok b) :
    (b.missing = true → b.candles = []) ∧ (b.missing = true ↔ b.source = .missing) := by
  rcases orchestrate_cases i p f p1 f1 b hb with ⟨cs, rfl⟩ | ⟨cs, rfl⟩ | rfl | ⟨-, one, rfl⟩
  · simp
  · simp
  · simp [missingBlock]
  · rw [resampleFinish]
    split
    · simp [missingBlock]
    · simp

theorem orchestrateAll_ok_inv (intervals : List Interval)
    (env : Interval → FetchEnv) (bs : List IntervalBlock)
    (hbs : orchestrateAll intervals env = .ok bs) (b : IntervalBlock)
    (hb : b ∈ bs) :
    (b.missing = true → b.candles = []) ∧ (b.missing = true ↔ b.source = .missing) := by
  induction intervals generalizing bs with
  | nil =>
    rw [orchestrateAll] at hbs
    cases hbs
    cases hb
  | cons i rest ih =>
    rw [orchestrateAll] at hbs
    split at hbs
    · cases hbs
    · split at hbs
      · cases hbs
      · cases hbs
        rcases List.mem_cons.mp hb with rfl | hb'
        · exact orchestrate_ok_inv i _ _ _ _ b (by assumption)
        · exact ih _ (by assumption) hb'

/-- C3: every IntervalBlock the Orchestrator returns satisfies the missing
invariant — if the block's `missing` flag is true then its candle sequence is
empty, and the flag is true exactly when the block's source is `missing`;
this holds for every block of every successful `get_structural_blocks`
call. -/
theorem missing_implies_empty (symbol : String) (intervals : List Interval)
    (env : Interval → FetchEnv) (depth : Option (ℚ × ℚ)) (cfg : MicroConfig)
    (sb : StructuralBlocks)
    (hsb : get_structural_blocks symbol intervals env depth cfg = .ok sb)
    (b : IntervalBlock) (hb : b ∈ sb.blocks) :
    (b.missing = true → b.candles = []) ∧ (b.missing = true ↔ b.source = .missing) := by
  rw [get_structural_blocks] at hsb
  split at hsb
  · cases hsb
  · cases hsb
    exact orchestrateAll_ok_inv intervals env _ (by assumption) b hb

/-- Witness for C3: a call whose every source fails produces the missing 1m
block, and the theorem yields its emptiness. -/
theorem missing_implies_empty_witness :
    (missingBlock Interval.m1).missing = true ∧
    (missingBlock Interval.m1).candles = [] :=
  ⟨rfl,
    (missing_implies_empty "BTCUSDT" [Interval.m1]
        (fun _ =>
          ⟨.error .RateLimited, .error .NetworkError, .error .RateLimited,
            .error .NetworkError⟩)
        none ⟨4, 2, 1⟩
        ⟨"BTCUSDT", [missingBlock Interval.m1], none, none, none, none⟩ rfl
        (missingBlock Interval.m1) (List.mem_singleton_self _)).1 rfl⟩

theorem tryFetch_ok (r : Fetch) (h : isFatal r = false) :
    ∃ o, tryFetch r = .ok o := by
  cases r with
  | ok cs => exact ⟨_, rfl⟩
  | error e => cases e <;> simp_all [isFatal, tryFetch]

theorem orchestrateInterval_ok (i : Interval) (p f p1 f1 : Fetch)
    (hp : isFatal p = false) (hf : isFatal f = false)
    (hp1 : isFatal p1 = false) (hf1 : isFatal f1 = false) :
    ∃ b, orchestrateInterval i p f p1 f1 = .ok b := by
  obtain ⟨o1, h1⟩ := tryFetch_ok p hp
  obtain ⟨o2, h2⟩ := tryFetch_ok f hf
  obtain ⟨o3, h3⟩ := tryFetch_ok p1 hp1
  obtain ⟨o4, h4⟩ := tryFetch_ok f1 hf1
  rw [orchestrateInterval, h1]
  cases o1 with
  | some cs => exact ⟨_, rfl⟩
  | none =>
    rw [h2]
    cases o2 with
    | some cs => exact ⟨_, rfl⟩
    | none =>
      by_cases hi : i = .m1
      · rw [if_pos hi]; exact ⟨_, rfl⟩
      · rw [if_neg hi, h3]
        cases o3 with
        | some one => exact ⟨_, rfl⟩
        | none =>
          rw [h4]
          cases o4 with
          | some one => exact ⟨_, rfl⟩
          | none => exact ⟨_, rfl⟩

theorem orchestrateAll_ok (intervals : List Interval) (env : Interval → FetchEnv)
    (h : ∀ i ∈ intervals,
      isFatal (env i).prim = false ∧ isFatal (env i).fall = false ∧
        isFatal (env i).prim1m = false ∧ isFatal (env i).fall1m = false) :
    ∃ bs, orchestrateAll intervals env = .ok bs := by
  induction intervals with
  | nil => exact ⟨[], rfl⟩
  | cons i rest ih =>
    obtain ⟨hi1, hi2, hi3, hi4⟩ := h i (List.mem_cons_self _ _)
    obtain ⟨b, hb⟩ := orchestrateInterval_ok i _ _ _ _ hi1 hi2 hi3 hi4
    obtain ⟨bs, hbs⟩ := ih fun j hj => h j (List.mem_cons_of_mem _ hj)
    exact ⟨b :: bs, by rw [orchestrateAll, hb, hbs]⟩

/-- C5: `get_structural_blocks` never throws for any source-level failure —
whenever no fetch result of the environment is the fatal
`UnsupportedInterval` error (so every failure is RateLimited, NetworkError,
UpstreamError, MarketTypeMismatch or an insufficient result), the top-level
call returns a successful `StructuralBlocks` value; failures surface only as
the `missing`/`source` fields of the contained blocks. -/
theorem get_structural_blocks_total (symbol : String)
    (intervals : List Interval) (env : Interval → FetchEnv)
    (depth : Option (ℚ × ℚ)) (cfg : MicroConfig)
    (h : ∀ i ∈ intervals,
      isFatal (env i).prim = false ∧ isFatal (env i).fall = false ∧
        isFatal (env i).prim1m = false ∧ isFatal (env i).fall1m = false) :
    ∃ sb, get_structural_blocks symbol intervals env depth cfg = .ok sb := by
  obtain ⟨bs, hbs⟩ := orchestrateAll_ok intervals env h
  exact ⟨_, by rw [get_structural_blocks, hbs]⟩

/-- Witness for C5: with every source failing in a distinct source-level way
for every interval, the call still returns `.ok`. -/
theorem get_structural_blocks_total_witness :
    ∃ sb,
      get_structural_blocks "BTCUSDT" [Interval.m1, Interval.m15, Interval.h1]
        (fun _ =>
          ⟨.error .RateLimited, .error .MarketTypeMismatch, .error .NetworkError,
            .error .UpstreamError⟩)
        (some (100, 10005 / 100)) ⟨4, 2, 3 / 2⟩ = .ok sb :=
  get_structural_blocks_total "BTCUSDT" [Interval.m1, Interval.m15, Interval.h1]
    (fun _ =>
      ⟨.error .RateLimited, .error .MarketTypeMismatch, .error .NetworkError,
        .error .UpstreamError⟩)
    (some (100, 10005 / 100)) ⟨4, 2, 3 / 2⟩ (by decide)

/-- C6: the 1m interval is never produced by the Resampler — no successful
orchestration of the 1m interval yields a block with source `resampled`, and
when both direct sources fail with source-level errors the 1m block is the
missing block unconditionally, whatever 1m base data the resample path could
have fetched. -/
theorem m1_never_resampled (p f p1 f1 : Fetch) :
    (∀ b, orchestrateInterval .m1 p f p1 f1 = .ok b → b.source ≠ .resampled) ∧
    (∀ ep ef, p = .error ep → f = .error ef →
      ep ≠ .UnsupportedInterval → ef ≠ .UnsupportedInterval →
      orchestrateInterval .m1 p f p1 f1 = .ok (missingBlock .m1)) := by
  constructor
  · intro b hb
    rcases orchestrate_cases .m1 p f p1 f1 b hb with
      ⟨cs, rfl⟩ | ⟨cs, rfl⟩ | rfl | ⟨hne, -⟩
    · simp
    · simp
    · simp [missingBlock]
    · exact absurd rfl hne
  · intro ep ef hp hf hep hef
    subst hp
    subst hf
    unfold orchestrateInterval
    have h1 : tryFetch (.error ep) = .ok none := by
      cases ep <;> simp_all [tryFetch]
    have h2 : tryFetch (.error ef) = .ok none := by
      cases ef <;> simp_all [tryFetch]
    rw [h1, h2, if_pos rfl]

/-- Witness for C6: both direct 1m sources fail with source-level errors and
the interval is marked missing even though 1m base data would be available to
a resampler. -/
theorem m1_never_resampled_witness :
    orchestrateInterval .m1 (.error .RateLimited) (.error .NetworkError)
        (.ok [wCandle1, wCandle2]) (.ok [wCandle1, wCandle2]) =
      .ok (missingBlock .m1) :=
  (m1_never_resampled (.error .RateLimited) (.error .NetworkError)
      (.ok [wCandle1, wCandle2]) (.ok [wCandle1, wCandle2])).2
    .RateLimited .NetworkError rfl rfl (by decide) (by decide)

/-! ## Exchange form placeholders -/

theorem placeholderDefault_ne_empty (ft : FieldType) :
    placeholderDefault ft ≠ "" := by
  cases ft <;> simp [placeholderDefault]

theorem placeholderOverride_some_ne_empty (e : String) (ft : FieldType)
    (s : String) (h : placeholderOverride e ft = some s) : s ≠ "" := by
  unfold placeholderOverride at h
  split_ifs at h <;> cases h <;> decide

/-- C9: `getPlaceholder` is total and never returns the empty string — for
every exchangeId and every field type of the five-member union the result is
a non-empty placeholder, so the final `return ""` branch is unreachable. -/
theorem getPlaceholder_ne_empty (exchangeId : String) (fieldType : FieldType) :
    getPlaceholder exchangeId fieldType ≠ "" := by
  unfold getPlaceholder
  rcases ho : placeholderOverride exchangeId fieldType with _ | s
  · simpa using placeholderDefault_ne_empty fieldType
  · simpa using placeholderOverride_some_ne_empty exchangeId fieldType s ho

/-! ## BackendHealthCheck progress bar -/

theorem progressStep_mono (p r s : ℚ) (hs : 0 ≤ s) : p ≤ progressStep p r s := by
  unfold progressStep
  have h : 0 ≤ s * (3 / 10) := mul_nonneg hs (by norm_num)
  split_ifs <;> linarith

theorem progressStep_fixed (p r s : ℚ) (hp : 99 ≤ p) : progressStep p r s = p := by
  unfold progressStep
  rw [if_pos hp]

theorem progressStep_bound (p r s : ℚ) (hs : s < 1) (hp : p < 99) :
    progressStep p r s ≤ p + 4 / 5 := by
  unfold progressStep
  rw [if_neg (by linarith)]
  have h : s * (3 / 10) < 3 / 10 := by nlinarith
  split_ifs <;> linarith

theorem progressFold_lt (draws : List (ℚ × ℚ)) :
    ∀ p : ℚ, p < 499 / 5 → (∀ d ∈ draws, 0 ≤ d.2 ∧ d.2 < 1) →
      draws.foldl (fun q d => progressStep q d.1 d.2) p < 499 / 5 := by
  induction draws with
  | nil =>
    intro p hp _
    simpa using hp
  | cons d t ih =>
    intro p hp hv
    rw [List.foldl_cons]
    apply ih
    · rcases le_or_lt 99 p with h99 | h99
      · rw [progressStep_fixed _ _ _ h99]
        exact hp
      · have h := progressStep_bound p d.1 d.2 (hv d (List.mem_cons_self _ _)).2 h99
        linarith
    · intro e he
      exact hv e (List.mem_cons_of_mem _ he)

/-- C10: the BackendHealthCheck progress value starts at 0, never decreases
on a tick with a non-negative scaling draw, is returned unchanged once it
reaches 99, increases by at most 0.8 per tick before that, and therefore
stays strictly below 99.8 (hence below 100) for every sequence of random
draws. -/
theorem progress_invariants :
    progressRun [] = 0 ∧
    (∀ p r s : ℚ, 0 ≤ s → p ≤ progressStep p r s) ∧
    (∀ p r s : ℚ, 99 ≤ p → progressStep p r s = p) ∧
    (∀ p r s : ℚ, s < 1 → p < 99 → progressStep p r s ≤ p + 4 / 5) ∧
    (∀ draws : List (ℚ × ℚ), (∀ d ∈ draws, 0 ≤ d.2 ∧ d.2 < 1) →
      progressRun draws < 499 / 5) :=
  ⟨rfl, progressStep_mono, progressStep_fixed, progressStep_bound,
    fun draws hv => progressFold_lt draws 0 (by norm_num) hv⟩

/-- Witness for C10 at a concrete draw sequence. -/
theorem progress_invariants_witness :
    progressRun [(1 / 2, 1 / 2), (19 / 20, 0)] < 499 / 5 :=
  progress_invariants.2.2.2.2 [(1 / 2, 1 / 2), (19 / 20, 0)] (by norm_num)

/-! ## Strategy-name generation -/

theorem digitChar_inj_lt {d e : Nat} (hd : d < 10) (he : e < 10)
    (h : Nat.digitChar d = Nat.digitChar e) : d = e := by
  interval_cases d <;> interval_cases e <;> revert h <;> decide

theorem map_digitChar_inj :
    ∀ l1 l2 : List Nat, (∀ x ∈ l1, x < 10) → (∀ x ∈ l2, x < 10) →
      l1.map Nat.digitChar = l2.map Nat.digitChar → l1 = l2 := by
  intro l1
  induction l1 with
  | nil =>
    intro l2 _ _ h
    cases l2 with
    | nil => rfl
    | cons y u => simp at h
  | cons x t ih =>
    intro l2 h1 h2 h
    cases l2 with
    | nil => simp at h
    | cons y u =>
      simp only [List.map_cons, List.cons.injEq] at h
      have hx := digitChar_inj_lt (h1 x (List.mem_cons_self _ _))
        (h2 y (List.mem_cons_self _ _)) h.1
      rw [hx,
        ih u (fun z hz => h1 z (List.mem_cons_of_mem _ hz))
          (fun z hz => h2 z (List.mem_cons_of_mem _ hz)) h.2]

theorem natStr_data_of_ne {n : Nat} (hn : n ≠ 0) :
    (natStr n).data = ((Nat.digits 10 n).map Nat.digitChar).reverse := by
  unfold natStr
  rw [if_neg hn]

theorem natStr_data_ne_zero_str {n : Nat} (hn : n ≠ 0) :
    (natStr n).data ≠ ("0" : String).data := by
  intro h
  rw [natStr_data_of_ne hn] at h
  have h2 : (Nat.digits 10 n).map Nat.digitChar = ['0'] := by
    have h3 := congrArg List.reverse h
    rw [List.reverse_reverse] at h3
    rw [h3]
    rfl
  rcases hdg : Nat.digits 10 n with _ | ⟨a, t⟩
  · rw [hdg] at h2
    simp at h2
  · rw [hdg] at h2
    simp only [List.map_cons] at h2
    have ht : t = [] := by
      have hl := congrArg List.length h2
      simp at hl
      exact hl
    subst ht
    simp only [List.map_nil, List.cons.injEq, and_true] at h2
    have ha : a < 10 :=
      Nat.digits_lt_base (by norm_num) (hdg ▸ List.mem_cons_self a [])
    have ha0 : a = 0 := digitChar_inj_lt ha (by norm_num) (by rw [h2]; rfl)
    have hn0 : n = 0 := by
      have ho := Nat.ofDigits_digits 10 n
      rw [hdg, ha0] at ho
      simpa [Nat.ofDigits] using ho.symm
    exact hn hn0

theorem natStr_data_inj {m n : Nat} (h : (natStr m).data = (natStr n).data) :
    m = n := by
  by_cases hm : m = 0 <;> by_cases hn : n = 0
  · rw [hm, hn]
  · exfalso
    rw [hm] at h
    exact natStr_data_ne_zero_str hn h.symm
  · exfalso
    rw [hn] at h
    exact natStr_data_ne_zero_str hm h
  · rw [natStr_data_of_ne hm, natStr_data_of_ne hn] at h
    have h2 := List.reverse_injective h
    exact Nat.digits.injective 10
      (map_digitChar_inj _ _
        (fun x hx => Nat.digits_lt_base (by norm_num) hx)
        (fun x hx => Nat.digits_lt_base (by norm_num) hx) h2)

theorem candidateName_inj (base : String) :
    Function.Injective (candidateName base) := by
  intro k j h
  unfold candidateName at h
  by_cases hk : k = 0 <;> by_cases hj : j = 0
  · rw [hk, hj]
  · exfalso
    rw [if_pos hk, if_neg hj] at h
    have hl := congrArg String.length h
    rw [String.length_append, String.length_append] at hl
    have hone : ("-" : String).length = 1 := rfl
    omega
  · exfalso
    rw [if_neg hk, if_pos hj] at h
    have hl := congrArg String.length h
    rw [String.length_append, String.length_append] at hl
    have hone : ("-" : String).length = 1 := rfl
    omega
  · rw [if_neg hk, if_neg hj] at h
    have hd := congrArg String.data h
    rw [String.data_append, String.data_append, String.data_append,
      String.data_append] at hd
    exact natStr_data_inj (List.append_cancel_left hd)

theorem exists_free_candidate (names : List String) (base : String) :
    ∃ k, k ≤ names.length ∧ candidateName base k ∉ names := by
  by_contra hcon
  push_neg at hcon
  have hsub : (List.range (names.length + 1)).map (candidateName base) ⊆ names := by
    intro x hx
    obtain ⟨k, hk, rfl⟩ := List.mem_map.mp hx
    exact hcon k (Nat.lt_succ_iff.mp (List.mem_range.mp hk))
  have hnd : ((List.range (names.length + 1)).map (candidateName base)).Nodup :=
    (List.nodup_range _).map (candidateName_inj base)
  have hle := (List.subperm_of_subset hnd hsub).length_le
  rw [List.length_map, List.length_range] at hle
  omega

theorem nameLoop_succ (names : List String) (base nn : String) (c f : Nat) :
    nameLoop names base nn c (f + 1) =
      if nn ∈ names then nameLoop names base (base ++ "-" ++ natStr c) (c + 1) f
      else some nn := rfl

theorem nameLoop_run (names : List String) (base : String) :
    ∀ fuel k0 : Nat,
      (∃ k, k0 ≤ k ∧ k < k0 + fuel ∧ candidateName base k ∉ names) →
      ∃ m, k0 ≤ m ∧
        nameLoop names base (candidateName base k0) (k0 + 1) fuel =
          some (candidateName base m) ∧
        candidateName base m ∉ names ∧
        ∀ j, k0 ≤ j → j < m → candidateName base j ∈ names := by
  intro fuel
  induction fuel with
  | zero =>
    rintro k0 ⟨k, hk1, hk2, -⟩
    exfalso
    omega
  | succ f ih =>
    rintro k0 ⟨k, hk1, hk2, hkfree⟩
    rw [nameLoop_succ]
    by_cases hmem : candidateName base k0 ∈ names
    · rw [if_pos hmem]
      have hc : base ++ "-" ++ natStr (k0 + 1) = candidateName base (k0 + 1) := by
        rw [candidateName, if_neg (Nat.succ_ne_zero k0)]
      rw [hc]
      have hex : ∃ k, k0 + 1 ≤ k ∧ k < k0 + 1 + f ∧ candidateName base k ∉ names := by
        refine ⟨k, ?_, by omega, hkfree⟩
        rcases Nat.eq_or_lt_of_le hk1 with rfl | hlt
        · exact absurd hmem hkfree
        · omega
      obtain ⟨m, hm1, hm2, hm3, hm4⟩ := ih (k0 + 1) hex
      refine ⟨m, by omega, hm2, hm3, fun j hj1 hj2 => ?_⟩
      by_cases hje : j = k0
      · rw [hje]
        exact hmem
      · exact hm4 j (by omega) hj2
    · rw [if_neg hmem]
      exact ⟨k0, le_refl _, rfl, hmem, fun j hj1 hj2 => absurd hj1 (by omega)⟩

/-- C8: the auto-generated strategy name of the create/copy wizards never
collides with an existing strategy — for every finite strategy-name list and
base name, the counter loop terminates (within `names.length + 1` probes),
returns the base name when it is free, and otherwise returns `base-k` for the
smallest counter `k ≥ 1` whose name is free. -/
theorem strategy_name_unique (names : List String) (base : String) :
    ∃ r, generateStrategyName names base = some r ∧ r ∉ names ∧
      (base ∉ names → r = base) ∧
      (base ∈ names → ∃ k, 1 ≤ k ∧ r = base ++ "-" ++ natStr k ∧
        ∀ j, 1 ≤ j → j < k → (base ++ "-" ++ natStr j) ∈ names) := by
  obtain ⟨k, hk, hkfree⟩ := exists_free_candidate names base
  obtain ⟨m, hm0, hrun, hmfree, hmin⟩ :=
    nameLoop_run names base (names.length + 1) 0 ⟨k, Nat.zero_le _, by omega, hkfree⟩
  have hc0 : candidateName base 0 = base := by rw [candidateName, if_pos rfl]
  rw [hc0, Nat.zero_add] at hrun
  refine ⟨candidateName base m, ?_, hmfree, ?_, ?_⟩
  · rw [generateStrategyName]
    exact hrun
  · intro hbase
    rcases Nat.eq_zero_or_pos m with rfl | hm
    · exact hc0
    · exact absurd (by simpa [hc0] using hmin 0 (Nat.zero_le _) hm) hbase
  · intro hbase
    rcases Nat.eq_zero_or_pos m with rfl | hm
    · rw [hc0] at hmfree
      exact absurd hbase hmfree
    · refine ⟨m, hm, ?_, fun j hj1 hj2 => ?_⟩
      · rw [candidateName, if_neg (by omega)]
      · have hj := hmin j (Nat.zero_le _) hj2
        rwa [candidateName, if_neg (by omega)] at hj

/-- Witness for C8: a concrete name list in which the base and its first
numbered variant are taken. -/
theorem strategy_name_unique_witness :
    ∃ r, generateStrategyName ["gpt-4o-OKX", "gpt-4o-OKX-1"] "gpt-4o-OKX" = some r ∧
      r ∉ ["gpt-4o-OKX", "gpt-4o-OKX-1"] ∧
      ("gpt-4o-OKX" ∉ ["gpt-4o-OKX", "gpt-4o-OKX-1"] → r = "gpt-4o-OKX") ∧
      ("gpt-4o-OKX" ∈ ["gpt-4o-OKX", "gpt-4o-OKX-1"] →
        ∃ k, 1 ≤ k ∧ r = "gpt-4o-OKX" ++ "-" ++ natStr k ∧
          ∀ j, 1 ≤ j → j < k → ("gpt-4o-OKX" ++ "-" ++ natStr j) ∈
            ["gpt-4o-OKX", "gpt-4o-OKX-1"]) :=
  strategy_name_unique ["gpt-4o-OKX", "gpt-4o-OKX-1"] "gpt-4o-OKX"

end ValueCell
